import Mathlib

/-!
Verification of the WordleCalculator core (src/main.py): feedback evaluation,
candidate filtering, partitioning, and the guess-selection heuristic.

Words are embedded as lists of characters; the Python strings of the source
are 5-letter uppercase words.  Python floats in the scoring formulas are
embedded as exact rationals; Python `None` returns are `Option.none`, and the
one reachable runtime exception (`candidates[0]` on an empty list) is an
`Except.error`.
-/

abbrev Word := List Char

/-- Feedback symbols: Green, Yellow, Black (the characters G/Y/B of the source). -/
inductive Fb
  | G
  | Y
  | B
deriving DecidableEq, Repr

/-- `target_chars[target_chars.index(c)] = None` of the source: blank out the
first occurrence of `c` in the consumed-target pool. -/
def removeFirst (c : Char) : List (Option Char) → List (Option Char)
  | [] => []
  | x :: xs => if x = some c then none :: xs else x :: removeFirst c xs

/-- Second pass of `get_feedback`: walk the (pass-one) guess characters; a
blanked (green) position keeps G, a live character present in the remaining
target pool becomes Y and consumes one occurrence, otherwise it stays B. -/
def pass2 : List (Option Char) → List (Option Char) → List Fb
  | [], _ => []
  | none :: gs, tcs => Fb.G :: pass2 gs tcs
  | some c :: gs, tcs =>
      if some c ∈ tcs then Fb.Y :: pass2 gs (removeFirst c tcs)
      else Fb.B :: pass2 gs tcs

/-- `get_feedback(guess, target)` of the source.  Pass one marks greens and
blanks the matched letters out of both words; pass two marks yellows.  The
source indexes positions `0..4` of two 5-character strings, which for words of
equal length is exactly the pointwise `zip` used here. -/
def get_feedback (guess target : Word) : List Fb :=
  let pairs := guess.zip target
  pass2 (pairs.map (fun p => if p.1 = p.2 then none else some p.1))
        (pairs.map (fun p => if p.1 = p.2 then none else some p.2))

/-- `filter_words(words, guess, feedback)` of the source: accumulate, in order,
the words whose feedback under `guess` equals the observed pattern. -/
def filter_words (words : List Word) (guess : Word) (feedback : List Fb) : List Word :=
  words.foldl (fun acc w => if get_feedback guess w = feedback then acc ++ [w] else acc) []

/-- `partitions[feedback].append(word)` on a `defaultdict(list)`: append `w`
to the group keyed by `fb`, creating the group at the end if the key is new. -/
def addPartition (fb : List Fb) (w : Word) :
    List (List Fb × List Word) → List (List Fb × List Word)
  | [] => [(fb, [w])]
  | (k, ws) :: rest =>
      if k = fb then (k, ws ++ [w]) :: rest else (k, ws) :: addPartition fb w rest

/-- `calculate_partitions(guess, possible_words)` of the source: group the
candidates by the feedback pattern the guess would produce against each. -/
def calculate_partitions (guess : Word) (possible_words : List Word) :
    List (List Fb × List Word) :=
  possible_words.foldl (fun m w => addPartition (get_feedback guess w) w m) []

/-- `max(partition_sizes) if partition_sizes else 0` of the source. -/
def listMax (l : List Nat) : Nat :=
  if l.isEmpty then 0 else l.foldl max 0

/-- `sum(partition_sizes) / len(partition_sizes) if partition_sizes else 0`. -/
def listAvg (l : List Nat) : ℚ :=
  if l.isEmpty then 0 else (l.sum : ℚ) / (l.length : ℚ)

/-- `evaluate_guess(guess, possible_words, all_words)` of the source:
`(max_remaining, avg_remaining, is_possible_answer, total_eliminated)`.
`all_words` is a parameter of the source function but is unused by its body. -/
def evaluate_guess (guess : Word) (possible_words : List Word) (_all_words : List Word) :
    Nat × ℚ × Bool × ℚ :=
  let partitions := calculate_partitions guess possible_words
  let partition_sizes := partitions.map (fun p => p.2.length)
  let max_remaining := listMax partition_sizes
  let avg_remaining := listAvg partition_sizes
  let is_possible_answer := decide (guess ∈ possible_words)
  (max_remaining, avg_remaining, is_possible_answer,
    (possible_words.length : ℚ) - avg_remaining)

/-- `get_letter_frequencies(words)` of the source: a `Counter` counting, for
each letter, one occurrence per word containing it (`for char in set(word)`). -/
def get_letter_frequencies (words : List Word) : Char → Nat :=
  words.foldl
    (fun f w => w.dedup.foldl (fun g c => fun x => if x = c then g x + 1 else g x) f)
    (fun _ => 0)

/-- `score_word_frequency(word, letter_freq)`: sum the frequencies of the
distinct letters of the word. -/
def score_word_frequency (word : Word) (letter_freq : Char → Nat) : Nat :=
  (word.dedup.map letter_freq).sum

/-- `len(set(word) - known_letters - excluded_letters)` of the source. -/
def unexploredCount (word : Word) (known excluded : Finset Char) : Nat :=
  ((word.toFinset \ known) \ excluded).card

/-- Running best of the source's `if score < best_score` loops, with
`best_score` initialised to `float('inf')` (any first score wins). -/
def bestFold {α : Type} [LinearOrder α] (f : Word → α) (l : List Word) :
    Option (α × Word) :=
  l.foldl
    (fun b w =>
      match b with
      | none => some (f w, w)
      | some (bs, bw) => if f w < bs then some (f w, w) else some (bs, bw))
    none

/-- Score of one evaluation candidate inside `find_best_distinguishing_word`:
`max_remaining + avg_remaining/1000 - 0.1*unexplored + 0.5*excluded_used`. -/
def distinguish_score (word : Word) (possible_words : List Word)
    (known excluded : Finset Char) : ℚ :=
  let partitions := calculate_partitions word possible_words
  let partition_sizes := partitions.map (fun p => p.2.length)
  let max_remaining := listMax partition_sizes
  let avg_remaining := listAvg partition_sizes
  let exploration_bonus : ℚ := (unexploredCount word known excluded : ℚ) * (1 / 10)
  let excluded_penalty : ℚ := ((word.toFinset ∩ excluded).card : ℚ) * (1 / 2)
  (max_remaining : ℚ) + avg_remaining / 1000 - exploration_bonus + excluded_penalty

/-- `find_best_distinguishing_word(possible_words, all_words, known, excluded)`
of the source.  Returns `none` exactly where Python returns `None` (empty
candidate list).  The two trailing fallbacks (`possible_words[0]`) are only
reached with at least two candidates, where `head?` is their value; the
`isEmpty` guard mirrors Python's `if best_word and best_info:` truthiness. -/
def find_best_distinguishing_word (possible_words all_words : List Word)
    (known excluded : Finset Char) : Option Word :=
  if possible_words.length ≤ 1 then possible_words.head?
  else
    let pool := (all_words.take 500).filter (fun w => decide (w ∉ possible_words))
    let evaluation_candidates :=
      if possible_words.length ≤ 3 then pool ++ possible_words else pool
    match bestFold (fun w => distinguish_score w possible_words known excluded)
        evaluation_candidates with
    | some (_, bw) => if bw.isEmpty then possible_words.head? else some bw
    | none => possible_words.head?

/-- Python string comparison `<` on words: lexicographic by character code,
with a proper prefix smaller than its extension. -/
def wordLt : Word → Word → Bool
  | [], [] => false
  | [], _ :: _ => true
  | _ :: _, [] => false
  | a :: l, b :: m => if a < b then true else if b < a then false else wordLt l m

/-- Python `bool` comparison: `False < True`. -/
def boolLt (a b : Bool) : Bool := !a && b

/-- Python tuple comparison on `(len(unexplored_letters), word)` pairs. -/
def pairLt (a b : Nat × Word) : Bool :=
  if a.1 < b.1 then true else if b.1 < a.1 then false else wordLt a.2 b.2

/-- One entry of the source's `candidates` list in the general selection case:
`(final_score, word, max_remaining, avg_remaining, is_possible_answer,
len(unexplored_letters), known_letters_in_word)`. -/
structure Cand where
  score : ℚ
  word : Word
  maxRem : Nat
  avgRem : ℚ
  isAns : Bool
  unexp : Nat
  knownIn : Nat
deriving DecidableEq, Repr

/-- Python tuple comparison on `Cand` entries, component by component. -/
def candLt (a b : Cand) : Bool :=
  if a.score < b.score then true else if b.score < a.score then false
  else if wordLt a.word b.word then true else if wordLt b.word a.word then false
  else if a.maxRem < b.maxRem then true else if b.maxRem < a.maxRem then false
  else if a.avgRem < b.avgRem then true else if b.avgRem < a.avgRem then false
  else if boolLt a.isAns b.isAns then true else if boolLt b.isAns a.isAns then false
  else if a.unexp < b.unexp then true else if b.unexp < a.unexp then false
  else decide (a.knownIn < b.knownIn)

/-- Stable insertion used to model Python's stable `list.sort`: `a` goes in
front of the first element it may precede. -/
def pyInsert {α : Type} (le : α → α → Bool) (a : α) : List α → List α
  | [] => [a]
  | b :: bs => if le a b then a :: b :: bs else b :: pyInsert le a bs

/-- Stable sort modelling Python's `list.sort(...)`: every element is inserted
in front of the already-sorted later elements, so equal elements keep their
original relative order, as Timsort guarantees. -/
def pySort {α : Type} (le : α → α → Bool) : List α → List α
  | [] => []
  | a :: l => pyInsert le a (pySort le l)

/-- The scored tuple the general selection case appends for one pool word
(source lines 310-342). -/
def score_tuple (word : Word) (possible_words all_words : List Word) (turn : Nat)
    (known excluded : Finset Char) : Cand :=
  let r := evaluate_guess word possible_words all_words
  let max_remaining := r.1
  let avg_remaining := r.2.1
  let is_possible_answer := r.2.2.1
  let words_remaining := possible_words.length
  let word_letters := word.toFinset
  let unexplored_letters := unexploredCount word known excluded
  let known_letters_in_word := (word_letters ∩ known).card
  let base_score : ℚ := (max_remaining : ℚ)
  let tie_breaker : ℚ := avg_remaining / 1000
  let exploration_bonus : ℚ :=
    if is_possible_answer = false ∧ 6 < words_remaining then
      -((unexplored_letters : ℚ) * (1 / 2)) + (known_letters_in_word : ℚ) * (3 / 10)
    else 0
  let answer_bonus : ℚ :=
    if is_possible_answer = true then
      if words_remaining ≤ 2 ∨ 5 ≤ turn then -1 else 2
    else if 6 < words_remaining then -(1 / 2) else 0
  { score := base_score + tie_breaker + answer_bonus + exploration_bonus,
    word := word, maxRem := max_remaining, avgRem := avg_remaining,
    isAns := is_possible_answer, unexp := unexplored_letters,
    knownIn := known_letters_in_word }

/-- Evaluation pool of the elimination branch (`words_remaining > 15`):
non-candidate dictionary-prefix words with no excluded letter and at least 3
unexplored letters; widened by positive-frequency non-candidates when fewer
than 50; capped at 150. -/
def elimination_evaluation_set (possible_words all_words : List Word)
    (known excluded : Finset Char) : List Word :=
  let letter_freq := get_letter_frequencies possible_words
  let pool0 := (all_words.take 800).filter (fun w =>
    decide (w ∉ possible_words) && decide (w.toFinset ∩ excluded = ∅) &&
    decide (3 ≤ unexploredCount w known excluded))
  let evaluation_set :=
    if pool0.length < 50 then
      pool0 ++ (all_words.take 800).filter (fun w =>
        decide (w ∉ possible_words) && decide (0 < score_word_frequency w letter_freq))
    else pool0
  evaluation_set.take 150

/-- Evaluation pool of the medium branch (`6 < words_remaining ≤ 15`):
non-candidate dictionary-prefix words with at least 2 unexplored letters,
sorted by `(unexplored count, word)` descending (`sort(reverse=True)` on the
pairs), capped at 100. -/
def medium_evaluation_set (possible_words all_words : List Word)
    (known excluded : Finset Char) : List Word :=
  let elimination_words := (all_words.take 600).filterMap (fun w =>
    if w ∉ possible_words ∧ 2 ≤ unexploredCount w known excluded then
      some (unexploredCount w known excluded, w)
    else none)
  let sorted := pySort (fun a b => !(pairLt a b)) elimination_words
  (sorted.map Prod.snd).take 100

/-- Scoring loop, sort and `candidates[0][1]` of the general selection case
(source lines 310-363).  `candidates[0]` on an empty scored list is Python's
`IndexError`, embedded as `Except.error`. -/
def general_scoring_phase (evaluation_set possible_words all_words : List Word)
    (turn : Nat) (known excluded : Finset Char) : Except String (Option Word) :=
  let scored := evaluation_set.map
    (fun w => score_tuple w possible_words all_words turn known excluded)
  match pySort (fun a b => !(candLt b a)) scored with
  | [] => Except.error "list index out of range"
  | c :: _ => Except.ok (some c.word)

/-- The dead two-candidate special case of the source (lines 209-258): find the
differing positions of the two remaining words, search the first 300
dictionary words (excluding the candidates) for one whose feedback separates
the two targets, minimising `-(new letters) - (overlap with differing
letters)`; otherwise fall back to the first candidate. -/
def two_candidate_branch (possible_words all_words : List Word)
    (known excluded : Finset Char) : Word :=
  let word1 := possible_words.headD []
  let word2 := (possible_words.drop 1).headD []
  let diffPairs := (word1.zip word2).filter (fun p => decide (p.1 ≠ p.2))
  let diff_letters := (diffPairs.map Prod.fst).toFinset ∪ (diffPairs.map Prod.snd).toFinset
  if diffPairs.isEmpty then word1
  else
    let pool := (all_words.take 300).filter (fun w =>
      decide (w ∉ possible_words) &&
      decide (get_feedback w word1 ≠ get_feedback w word2))
    let best := bestFold (fun w =>
      -((unexploredCount w known excluded : ℤ)) - ((w.toFinset ∩ diff_letters).card : ℤ))
      pool
    match best with
    | some (_, bw) => if bw.isEmpty then word1 else bw
    | none => word1

/-- The preferred opener of `proven_starters = ["COURT"]`. -/
def COURT : Word := ['C', 'O', 'U', 'R', 'T']

/-- The fixed fallback starter of the source. -/
def ADIEU : Word := ['A', 'D', 'I', 'E', 'U']

/-- `choose_best_word(possible_words, all_words, turn, known, excluded)` of the
source.  `Except.ok none` is Python returning `None`; `Except.error` is the
`IndexError` of `candidates[0]` on an empty scored list.  The single-word and
turn-one returns use `head?`/the fixed starters.  The `words_remaining == 2`
branch is kept exactly where the source has it, although it is unreachable
(2 ≤ 10 returns first), as is the final `find_best_distinguishing_word` else
branch (words_remaining > 10 there). -/
def choose_best_word (possible_words all_words : List Word) (turn : Nat)
    (known excluded : Finset Char) : Except String (Option Word) :=
  if possible_words.length = 1 then Except.ok possible_words.head?
  else
    let words_remaining := possible_words.length
    if turn = 1 then
      match [COURT].find? (fun s => decide (s ∈ all_words)) with
      | some best_starter => Except.ok (some best_starter)
      | none => Except.ok (some ADIEU)
    else if words_remaining ≤ 10 then
      Except.ok (find_best_distinguishing_word possible_words all_words known excluded)
    else if words_remaining = 2 then
      Except.ok (some (two_candidate_branch possible_words all_words known excluded))
    else if 15 < words_remaining then
      general_scoring_phase
        (elimination_evaluation_set possible_words all_words known excluded)
        possible_words all_words turn known excluded
    else if 6 < words_remaining then
      general_scoring_phase
        (medium_evaluation_set possible_words all_words known excluded)
        possible_words all_words turn known excluded
    else
      Except.ok (find_best_distinguishing_word possible_words all_words known excluded)

/-- Equality of selection results (`Except` carries no decidable equality of
its own) is decided componentwise. -/
instance {ε α : Type} [DecidableEq ε] [DecidableEq α] : DecidableEq (Except ε α)
  | Except.error e, Except.error f => decidable_of_iff (e = f) (by simp)
  | Except.error _, Except.ok _ => isFalse (by simp)
  | Except.ok _, Except.error _ => isFalse (by simp)
  | Except.ok a, Except.ok b => decidable_of_iff (a = b) (by simp)

/-- Eleven candidate words used as a concrete selection input. -/
def cexCandidates : List Word :=
  [['A','A','A','A','A'], ['A','A','A','A','B'], ['A','A','A','B','A'],
   ['A','A','B','A','A'], ['A','B','A','A','A'], ['B','A','A','A','A'],
   ['A','A','A','B','B'], ['A','A','B','B','A'], ['A','B','B','A','A'],
   ['B','B','A','A','A'], ['A','A','B','A','B']]

/-- The eleven candidates plus two non-candidate words sharing no letter with
them, used as a concrete dictionary. -/
def cexDictionary : List Word :=
  cexCandidates ++ [['Z','Z','Z','Z','W'], ['V','V','V','V','W']]

lemma filter_words_foldl (guess : Word) (feedback : List Fb) :
    ∀ (ws acc : List Word),
      ws.foldl (fun acc w => if get_feedback guess w = feedback then acc ++ [w] else acc) acc
        = acc ++ ws.filter (fun w => decide (get_feedback guess w = feedback))
  | [], acc => by simp
  | w :: ws, acc => by
      simp only [List.foldl_cons, List.filter_cons]
      by_cases h : get_feedback guess w = feedback
      · simp [h, filter_words_foldl guess feedback ws (acc ++ [w])]
      · simp [h, filter_words_foldl guess feedback ws acc]

lemma filter_words_eq_filter (ws : List Word) (guess : Word) (feedback : List Fb) :
    filter_words ws guess feedback
      = ws.filter (fun w => decide (get_feedback guess w = feedback)) := by
  simpa using filter_words_foldl guess feedback ws []

/-- C9: `filter_words` returns exactly the candidates whose feedback under the
guess equals the pattern, in their original relative order (it is `List.filter`
of that predicate), and hence never lengthens the list. -/
theorem filter_words_exact_and_shrinks (ws : List Word) (guess : Word) (feedback : List Fb) :
    filter_words ws guess feedback
        = ws.filter (fun w => decide (get_feedback guess w = feedback))
      ∧ (filter_words ws guess feedback).length ≤ ws.length := by
  refine ⟨filter_words_eq_filter ws guess feedback, ?_⟩
  rw [filter_words_eq_filter ws guess feedback]
  exact List.length_filter_le _ ws

/-- C7: filtering the candidates by the feedback that the target itself
produces never discards the target. -/
theorem filter_words_keeps_target (g t : Word) (ws : List Word) (h : t ∈ ws) :
    t ∈ filter_words ws g (get_feedback g t) := by
  rw [filter_words_eq_filter]
  exact List.mem_filter.mpr ⟨h, by simp⟩

/-- Witness for C7 at a concrete input. -/
theorem filter_words_keeps_target_witness :
    ['R','A','I','S','E'] ∈ [['C','R','A','N','E'], ['R','A','I','S','E']]
      ∧ ['R','A','I','S','E'] ∈
          filter_words [['C','R','A','N','E'], ['R','A','I','S','E']]
            ['A','R','I','S','E']
            (get_feedback ['A','R','I','S','E'] ['R','A','I','S','E']) :=
  ⟨by decide,
   filter_words_keeps_target ['A','R','I','S','E'] ['R','A','I','S','E'] _ (by decide)⟩

/-- C10: with no candidates left and any turn from 2 on, `choose_best_word`
returns the explicit no-candidates signal (Python `None`), not an error. -/
theorem choose_best_word_empty_returns_none (aw : List Word) (turn : Nat)
    (known excluded : Finset Char) (h : 2 ≤ turn) :
    choose_best_word [] aw turn known excluded = Except.ok none := by
  have ht : turn ≠ 1 := by omega
  simp [choose_best_word, ht, find_best_distinguishing_word]

/-- Witness for C10 at a concrete input. -/
theorem choose_best_word_empty_returns_none_witness :
    2 ≤ 2 ∧ choose_best_word [] [COURT] 2 ∅ ∅ = Except.ok none :=
  ⟨by decide, choose_best_word_empty_returns_none [COURT] 2 ∅ ∅ (by decide)⟩

/-- C5 counterexample: at turn 1 with the preferred opener in the dictionary
but a single-word candidate set, `choose_best_word` returns the candidate, not
the opener (the single-candidate rule fires before the opening rule). -/
theorem opener_claim_counterexample :
    COURT ∈ [COURT, ['S','L','A','T','E']]
      ∧ choose_best_word [['S','L','A','T','E']] [COURT, ['S','L','A','T','E']] 1 ∅ ∅
          = Except.ok (some ['S','L','A','T','E'])
      ∧ (['S','L','A','T','E'] : Word) ≠ COURT := by
  exact ⟨by decide, rfl, by decide⟩

/-- C5 (amended): at turn 1, for every candidate set that is not a singleton,
`choose_best_word` returns the preferred opener when it is in the dictionary
and the fixed fallback ADIEU otherwise. -/
theorem choose_best_word_turn1 (pw aw : List Word) (known excluded : Finset Char)
    (h : pw.length ≠ 1) :
    (COURT ∈ aw → choose_best_word pw aw 1 known excluded = Except.ok (some COURT))
      ∧ (COURT ∉ aw → choose_best_word pw aw 1 known excluded = Except.ok (some ADIEU)) := by
  constructor <;> intro hc <;> simp [choose_best_word, h, List.find?, hc]

/-- Witness for C5 (amended) at a concrete input. -/
theorem choose_best_word_turn1_witness :
    ([COURT, ['S','L','A','T','E']] : List Word).length ≠ 1
      ∧ (COURT ∈ [COURT, ['S','L','A','T','E'], ['C','R','A','N','E']] →
          choose_best_word [COURT, ['S','L','A','T','E']]
              [COURT, ['S','L','A','T','E'], ['C','R','A','N','E']] 1 ∅ ∅
            = Except.ok (some COURT))
      ∧ (COURT ∉ [COURT, ['S','L','A','T','E'], ['C','R','A','N','E']] →
          choose_best_word [COURT, ['S','L','A','T','E']]
              [COURT, ['S','L','A','T','E'], ['C','R','A','N','E']] 1 ∅ ∅
            = Except.ok (some ADIEU)) :=
  ⟨by decide,
   (choose_best_word_turn1 [COURT, ['S','L','A','T','E']]
      [COURT, ['S','L','A','T','E'], ['C','R','A','N','E']] ∅ ∅ (by decide)).1,
   (choose_best_word_turn1 [COURT, ['S','L','A','T','E']]
      [COURT, ['S','L','A','T','E'], ['C','R','A','N','E']] ∅ ∅ (by decide)).2⟩

/-- C2 counterexample: on two candidates the selector does not run the
two-candidate strategy of the source (which here falls back to the first
candidate AAAAA, the dictionary holding no third word): it runs the small-set
distinguishing search and returns ABCDE. -/
theorem two_candidate_claim_counterexample :
    two_candidate_branch [['A','A','A','A','A'], ['A','B','C','D','E']]
        [['A','A','A','A','A'], ['A','B','C','D','E']] ∅ ∅ = ['A','A','A','A','A']
      ∧ choose_best_word [['A','A','A','A','A'], ['A','B','C','D','E']]
          [['A','A','A','A','A'], ['A','B','C','D','E']] 2 ∅ ∅
          = Except.ok (some ['A','B','C','D','E'])
      ∧ (['A','A','A','A','A'] : Word) ≠ ['A','B','C','D','E'] := by
  refine ⟨rfl, ?_, by decide⟩
  have m1 : (calculate_partitions ['A','A','A','A','A']
      [['A','A','A','A','A'], ['A','B','C','D','E']]).map (fun p => p.2.length) = [1, 1] := rfl
  have m2 : (calculate_partitions ['A','B','C','D','E']
      [['A','A','A','A','A'], ['A','B','C','D','E']]).map (fun p => p.2.length) = [1, 1] := rfl
  have h : distinguish_score ['A','B','C','D','E']
        [['A','A','A','A','A'], ['A','B','C','D','E']] ∅ ∅
      < distinguish_score ['A','A','A','A','A']
        [['A','A','A','A','A'], ['A','B','C','D','E']] ∅ ∅ := by
    have u1 : unexploredCount ['A','A','A','A','A'] ∅ ∅ = 1 := rfl
    have u2 : unexploredCount ['A','B','C','D','E'] ∅ ∅ = 5 := rfl
    have x1 : ((['A','A','A','A','A'] : Word).toFinset ∩ ∅).card = 0 := rfl
    have x2 : ((['A','B','C','D','E'] : Word).toFinset ∩ ∅).card = 0 := rfl
    simp only [distinguish_score, m1, m2, u1, u2, x1, x2]
    norm_num [listMax, listAvg]
  simp only [choose_best_word, find_best_distinguishing_word]
  norm_num
  simp only [bestFold, List.foldl]
  rw [if_pos h]
  simp

/-- C2 (amended): on exactly two candidates at any turn other than 1, the
selector runs the small-set distinguishing search (`words_remaining ≤ 10`
fires first, so the source's dedicated two-candidate branch is unreachable). -/
theorem choose_best_word_two_runs_distinguishing (pw aw : List Word) (turn : Nat)
    (known excluded : Finset Char) (h2 : pw.length = 2) (ht : turn ≠ 1) :
    choose_best_word pw aw turn known excluded
      = Except.ok (find_best_distinguishing_word pw aw known excluded) := by
  simp [choose_best_word, h2, ht]

/-- Witness for C2 (amended) at a concrete input. -/
theorem choose_best_word_two_runs_distinguishing_witness :
    ([['A','A','A','A','A'], ['A','B','C','D','E']] : List Word).length = 2
      ∧ choose_best_word [['A','A','A','A','A'], ['A','B','C','D','E']]
          [['A','A','A','A','A'], ['A','B','C','D','E']] 2 ∅ ∅
        = Except.ok (find_best_distinguishing_word
            [['A','A','A','A','A'], ['A','B','C','D','E']]
            [['A','A','A','A','A'], ['A','B','C','D','E']] ∅ ∅) :=
  ⟨by decide,
   choose_best_word_two_runs_distinguishing _ _ 2 ∅ ∅ (by decide) (by decide)⟩

/-- C1 counterexample: eleven candidates whose dictionary contains no other
word leave the medium-branch evaluation pool empty, and `candidates[0]` then
raises an IndexError instead of falling back to the first candidate. -/
theorem selection_totality_counterexample :
    cexCandidates ≠ []
      ∧ choose_best_word cexCandidates cexCandidates 2 ∅ ∅
          = Except.error "list index out of range" := by
  exact ⟨by decide, rfl⟩

/-- C4 counterexample: in the medium general case the evaluation pool is
`[ZZZZW, VVVVW]` in that order, both words receive exactly the same score, yet
the selector returns the second pool word VVVVW (ties are broken by Python's
tuple comparison, whose second component is the word itself, so the
lexicographically smaller word wins, not the first-encountered one). -/
theorem tie_break_claim_counterexample :
    medium_evaluation_set cexCandidates cexDictionary ∅ ∅
        = [['Z','Z','Z','Z','W'], ['V','V','V','V','W']]
      ∧ (score_tuple ['Z','Z','Z','Z','W'] cexCandidates cexDictionary 2 ∅ ∅).score
          = (score_tuple ['V','V','V','V','W'] cexCandidates cexDictionary 2 ∅ ∅).score
      ∧ choose_best_word cexCandidates cexDictionary 2 ∅ ∅
          = Except.ok (some ['V','V','V','V','W']) := by
  refine ⟨rfl, rfl, ?_⟩
  have hpool : medium_evaluation_set cexCandidates cexDictionary ∅ ∅
      = [['Z','Z','Z','Z','W'], ['V','V','V','V','W']] := rfl
  have hs : (score_tuple ['V','V','V','V','W'] cexCandidates cexDictionary 2 ∅ ∅).score
      = (score_tuple ['Z','Z','Z','Z','W'] cexCandidates cexDictionary 2 ∅ ∅).score := rfl
  have hwV : (score_tuple ['V','V','V','V','W'] cexCandidates cexDictionary 2 ∅ ∅).word
      = ['V','V','V','V','W'] := rfl
  have hwZ : (score_tuple ['Z','Z','Z','Z','W'] cexCandidates cexDictionary 2 ∅ ∅).word
      = ['Z','Z','Z','Z','W'] := rfl
  have hc : candLt (score_tuple ['V','V','V','V','W'] cexCandidates cexDictionary 2 ∅ ∅)
      (score_tuple ['Z','Z','Z','Z','W'] cexCandidates cexDictionary 2 ∅ ∅) = true := by
    simp only [candLt, hs, hwV, hwZ, lt_irrefl, if_false]
    norm_num
    exact Or.inl rfl
  have hlen : cexCandidates.length = 11 := rfl
  simp only [choose_best_word, hlen, hpool]
  norm_num
  simp only [general_scoring_phase, List.map, pySort, pyInsert, hc]
  simp [hwV]

/-- C6: the general-case score is exactly
`worst_case + mean_case/1000 + exploration_term + answer_term`, with the
exploration term `-0.5*unexplored + 0.3*known_overlap` applied only to
non-answer words on more than 6 remaining candidates, and the answer term
`-1` for a candidate answer with at most 2 remaining or turn at least 5,
`+2` for a candidate answer otherwise, and `-0.5` for a non-answer with more
than 6 remaining. -/
theorem score_tuple_formula (word : Word) (pw aw : List Word) (turn : Nat)
    (known excluded : Finset Char) :
    (score_tuple word pw aw turn known excluded).score =
      ((evaluate_guess word pw aw).1 : ℚ)
        + (evaluate_guess word pw aw).2.1 / 1000
        + (if (evaluate_guess word pw aw).2.2.1 = false ∧ 6 < pw.length
           then -(1/2 : ℚ) * (unexploredCount word known excluded : ℚ)
                + (3/10 : ℚ) * ((word.toFinset ∩ known).card : ℚ)
           else 0)
        + (if (evaluate_guess word pw aw).2.2.1 = true
           then (if pw.length ≤ 2 ∨ 5 ≤ turn then (-1 : ℚ) else 2)
           else if 6 < pw.length then (-(1/2) : ℚ) else 0) := by
  simp only [score_tuple]
  split_ifs <;> ring

lemma addPartition_keys (fb : List Fb) (w : Word) :
    ∀ m : List (List Fb × List Word),
      (addPartition fb w m).map Prod.fst =
        if fb ∈ m.map Prod.fst then m.map Prod.fst else m.map Prod.fst ++ [fb]
  | [] => by simp [addPartition]
  | (k, ws) :: rest => by
      by_cases hk : k = fb
      · simp [addPartition, hk]
      · have := addPartition_keys fb w rest
        by_cases hm : fb ∈ rest.map Prod.fst <;>
          simp [addPartition, hk, hm, Ne.symm hk, this]

lemma addPartition_sumCount (fb : List Fb) (w x : Word) :
    ∀ m : List (List Fb × List Word),
      ((addPartition fb w m).map (fun p => p.2.count x)).sum =
        (m.map (fun p => p.2.count x)).sum + (if x = w then 1 else 0)
  | [] => by
      by_cases hx : x = w <;> simp [addPartition, hx, List.count_cons]
  | (k, ws) :: rest => by
      by_cases hk : k = fb
      · by_cases hx : x = w <;>
          simp [addPartition, hk, hx, List.count_append, List.count_cons] <;> omega
      · have := addPartition_sumCount fb w x rest
        simp [addPartition, hk, this]
        omega

lemma addPartition_correct (F : Word → List Fb) (fb : List Fb) (w : Word) (hw : F w = fb) :
    ∀ m : List (List Fb × List Word),
      (∀ p ∈ m, ∀ x ∈ p.2, F x = p.1) →
      ∀ p ∈ addPartition fb w m, ∀ x ∈ p.2, F x = p.1
  | [], _ => by
      intro p hp x hx
      simp [addPartition] at hp
      subst hp
      simp at hx
      subst hx
      exact hw
  | (k, ws) :: rest, hm => by
      intro p hp x hx
      by_cases hk : k = fb
      · simp only [addPartition, if_pos hk] at hp
        rcases List.mem_cons.mp hp with h | h
        · subst h
          rcases List.mem_append.mp hx with h' | h'
          · exact hm (k, ws) (List.mem_cons_self _ _) x h'
          · simp at h'
            subst h'
            rw [hw, hk]
        · exact hm p (List.mem_cons_of_mem _ h) x hx
      · simp only [addPartition, if_neg hk] at hp
        rcases List.mem_cons.mp hp with h | h
        · subst h
          exact hm (k, ws) (List.mem_cons_self _ _) x hx
        · exact addPartition_correct F fb w hw rest
            (fun q hq => hm q (List.mem_cons_of_mem _ hq)) p h x hx

lemma partitions_fold_sumCount (g x : Word) :
    ∀ (ws : List Word) (m : List (List Fb × List Word)),
      (((ws.foldl (fun m w => addPartition (get_feedback g w) w m) m)).map
          (fun p => p.2.count x)).sum
        = (m.map (fun p => p.2.count x)).sum + ws.count x
  | [], m => by simp
  | w :: ws, m => by
      simp only [List.foldl_cons]
      rw [partitions_fold_sumCount g x ws, addPartition_sumCount]
      by_cases hx : x = w <;> simp [List.count_cons, hx] <;> omega

lemma partitions_fold_correct (g : Word) :
    ∀ (ws : List Word) (m : List (List Fb × List Word)),
      (∀ p ∈ m, ∀ x ∈ p.2, get_feedback g x = p.1) →
      ∀ p ∈ ws.foldl (fun m w => addPartition (get_feedback g w) w m) m,
        ∀ x ∈ p.2, get_feedback g x = p.1
  | [], m, hm => hm
  | w :: ws, m, hm => by
      simp only [List.foldl_cons]
      exact partitions_fold_correct g ws _
        (addPartition_correct (get_feedback g) _ w rfl m hm)

lemma partitions_fold_keysNodup (g : Word) :
    ∀ (ws : List Word) (m : List (List Fb × List Word)),
      (m.map Prod.fst).Nodup →
      ((ws.foldl (fun m w => addPartition (get_feedback g w) w m) m).map Prod.fst).Nodup
  | [], m, hm => hm
  | w :: ws, m, hm => by
      simp only [List.foldl_cons]
      refine partitions_fold_keysNodup g ws _ ?_
      rw [addPartition_keys]
      by_cases hmem : get_feedback g w ∈ m.map Prod.fst
      · simpa [hmem] using hm
      · simp only [hmem, if_false]
        simp [List.nodup_append, hm, hmem]

/-- C8: the groups of `calculate_partitions` are pairwise disjoint, together
they hold every candidate exactly as often as the input list does (so their
union is the candidate list), and the empty candidate list yields the empty
mapping. -/
theorem calculate_partitions_is_partition (guess : Word) (ws : List Word) :
    (calculate_partitions guess ws).Pairwise (fun a b => ∀ w, w ∈ a.2 → w ∉ b.2)
      ∧ (∀ x : Word,
          ((calculate_partitions guess ws).map (fun p => p.2.count x)).sum = ws.count x)
      ∧ calculate_partitions guess [] = [] := by
  refine ⟨?_, ?_, rfl⟩
  · have hnd : ((calculate_partitions guess ws).map Prod.fst).Nodup :=
      partitions_fold_keysNodup guess ws [] (by simp)
    have hcor : ∀ p ∈ calculate_partitions guess ws, ∀ x ∈ p.2, get_feedback guess x = p.1 :=
      partitions_fold_correct guess ws [] (by simp)
    have hne : (calculate_partitions guess ws).Pairwise (fun a b => a.1 ≠ b.1) := by
      rw [List.Nodup, List.pairwise_map] at hnd
      exact hnd
    refine hne.imp_of_mem ?_
    intro a b ha hb hab w hwa hwb
    exact hab ((hcor a ha w hwa).symm.trans (hcor b hb w hwb))
  · intro x
    simpa using partitions_fold_sumCount guess x ws []

lemma removeFirst_count_ne (c L : Char) (h : L ≠ c) :
    ∀ tcs : List (Option Char),
      (removeFirst c tcs).count (some L) = tcs.count (some L)
  | [] => rfl
  | x :: xs => by
      by_cases hx : x = some c
      · have hxL : x ≠ some L := by simp [hx, h.symm]
        simp [removeFirst, hx, List.count_cons, hxL, h.symm]
      · simp [removeFirst, hx, List.count_cons, removeFirst_count_ne c L h xs]

lemma removeFirst_count_self (c : Char) :
    ∀ tcs : List (Option Char), some c ∈ tcs →
      (removeFirst c tcs).count (some c) + 1 = tcs.count (some c)
  | x :: xs, hmem => by
      by_cases hx : x = some c
      · simp [removeFirst, hx, List.count_cons]
      · have hm : some c ∈ xs := by
          rcases List.mem_cons.mp hmem with h | h
          · exact absurd h.symm hx
          · exact h
        simp [removeFirst, hx, List.count_cons, Ne.symm hx,
          ← removeFirst_count_self c xs hm]

lemma pass2_gy_count (L : Char) :
    ∀ (p : List (Char × Char)) (tcs : List (Option Char)),
      ((p.zip (pass2 (p.map (fun q => if q.1 = q.2 then none else some q.1)) tcs)).countP
          (fun q => decide (q.1.1 = L ∧ q.2 ≠ Fb.B)))
        = (p.countP (fun q => decide (q.1 = L ∧ q.1 = q.2)))
          + min (p.countP (fun q => decide (q.1 = L ∧ ¬ q.1 = q.2))) (tcs.count (some L))
  | [], tcs => by simp
  | (a, b) :: rest, tcs => by
      by_cases hab : a = b
      · subst hab
        simp only [List.map_cons, if_pos rfl, pass2, List.zip_cons_cons, List.countP_cons]
        rw [pass2_gy_count L rest tcs]
        by_cases haL : a = L
        · simp [haL]
          omega
        · simp [haL]
      · simp only [List.map_cons, if_neg hab, pass2]
        by_cases hmem : some a ∈ tcs
        · simp only [if_pos hmem, List.zip_cons_cons, List.countP_cons]
          rw [pass2_gy_count L rest (removeFirst a tcs)]
          by_cases haL : a = L
          · have hrc := removeFirst_count_self a tcs hmem
            rw [haL] at hrc
            have hLb : ¬L = b := by
              rw [← haL]
              exact hab
            simp [haL, hab, hLb]
            omega
          · have hrc := removeFirst_count_ne a L (Ne.symm haL) tcs
            simp [haL, hab, hrc]
        · simp only [if_neg hmem, List.zip_cons_cons, List.countP_cons]
          rw [pass2_gy_count L rest tcs]
          by_cases haL : a = L
          · have hz : tcs.count (some L) = 0 := by
              rw [← haL]
              exact List.count_eq_zero.mpr hmem
            have hLb : ¬L = b := by
              rw [← haL]
              exact hab
            simp [haL, hab, hz, hLb]
          · simp [haL, hab]

lemma countP_and_split {α : Type} (l : List α) (p q : α → Prop)
    [DecidablePred p] [DecidablePred q] :
    l.countP (fun a => decide (p a)) =
      l.countP (fun a => decide (p a ∧ q a)) + l.countP (fun a => decide (p a ∧ ¬ q a)) := by
  induction l with
  | nil => simp
  | cons a l ih =>
      simp only [List.countP_cons, ih]
      by_cases hp : p a <;> by_cases hq : q a <;> simp [hp, hq] <;> omega

lemma zip_self_pass1 : ∀ t : List Char,
    ((t.zip t).map (fun q => if q.1 = q.2 then none else some q.1))
      = List.replicate t.length (none : Option Char)
  | [] => rfl
  | a :: l => by simp [zip_self_pass1 l, List.replicate_succ]

lemma pass2_replicate_none : ∀ (n : Nat) (tcs : List (Option Char)),
    pass2 (List.replicate n none) tcs = List.replicate n Fb.G
  | 0, _ => rfl
  | n + 1, tcs => by simp [List.replicate_succ, pass2, pass2_replicate_none n tcs]

lemma get_feedback_self (t : Word) : get_feedback t t = List.replicate t.length Fb.G := by
  simp only [get_feedback, zip_self_pass1]
  rw [pass2_replicate_none]

lemma countP_congr_mem {α : Type} {l : List α} {p q : α → Bool}
    (h : ∀ a ∈ l, p a = true ↔ q a = true) : l.countP p = l.countP q := by
  induction l with
  | nil => simp
  | cons a t ih =>
      simp only [List.countP_cons]
      rw [ih (fun b hb => h b (List.mem_cons_of_mem a hb))]
      have ha := h a (List.mem_cons_self a t)
      by_cases hp : p a = true
      · simp [hp, ha.mp hp]
      · have hq : ¬ q a = true := fun hq => hp (ha.mpr hq)
        simp [hp, hq]

theorem get_feedback_minimum_count (g t : Word) (L : Char)
    (hg : g.length = 5) (ht : t.length = 5) :
    ((g.zip (get_feedback g t)).countP (fun q => decide (q.1 = L ∧ q.2 ≠ Fb.B)))
        = min (g.count L) (t.count L)
      ∧ get_feedback t t = List.replicate 5 Fb.G := by
  refine ⟨?_, by rw [get_feedback_self, ht]⟩
  have hlg : g.length ≤ t.length := by omega
  have hlt : t.length ≤ g.length := by omega
  have hfst : (g.zip t).map Prod.fst = g := List.map_fst_zip g t hlg
  have hsnd : (g.zip t).map Prod.snd = t := List.map_snd_zip g t hlt
  have hzip : g.zip (get_feedback g t)
      = ((g.zip t).zip (get_feedback g t)).map (Prod.map Prod.fst id) := by
    nth_rewrite 1 [← hfst]
    exact List.zip_map_left Prod.fst (g.zip t) (get_feedback g t)
  rw [hzip, List.countP_map]
  have hpred : ((fun (q : Char × Fb) => decide (q.1 = L ∧ q.2 ≠ Fb.B))
        ∘ Prod.map Prod.fst id)
      = fun (q : (Char × Char) × Fb) => decide (q.1.1 = L ∧ q.2 ≠ Fb.B) := rfl
  rw [hpred]
  simp only [get_feedback]
  rw [pass2_gy_count]
  -- count of L in g, split over green / non-green positions
  have hcg : g.count L
      = (g.zip t).countP (fun q => decide (q.1 = L ∧ q.1 = q.2))
        + (g.zip t).countP (fun q => decide (q.1 = L ∧ ¬ q.1 = q.2)) := by
    rw [← countP_and_split (g.zip t) (fun q => q.1 = L) (fun q => q.1 = q.2)]
    nth_rewrite 1 [← hfst]
    rw [List.count_eq_countP, List.countP_map]
    refine countP_congr_mem ?_
    intro a _
    simp [Function.comp]
  -- count of L in t, split the same way
  have hct : t.count L
      = (g.zip t).countP (fun q => decide (q.1 = L ∧ q.1 = q.2))
        + (g.zip t).countP (fun q => decide (q.2 = L ∧ ¬ q.1 = q.2)) := by
    have hsplit := countP_and_split (g.zip t) (fun q => q.2 = L) (fun q => q.1 = q.2)
    have hgr : (g.zip t).countP (fun q => decide (q.2 = L ∧ q.1 = q.2))
        = (g.zip t).countP (fun q => decide (q.1 = L ∧ q.1 = q.2)) := by
      refine countP_congr_mem ?_
      intro a _
      by_cases h12 : a.1 = a.2 <;> simp [h12]
    have hbase : t.count L = (g.zip t).countP (fun q => decide (q.2 = L)) := by
      nth_rewrite 1 [← hsnd]
      rw [List.count_eq_countP, List.countP_map]
      refine countP_congr_mem ?_
      intro a _
      simp [Function.comp]
    rw [hbase, hsplit, hgr]
  -- the remaining-pool count of L equals the non-green L-positions of t
  have htcs : ((g.zip t).map
        (fun q => if q.1 = q.2 then none else some q.2)).count (some L)
      = (g.zip t).countP (fun q => decide (q.2 = L ∧ ¬ q.1 = q.2)) := by
    rw [List.count_eq_countP, List.countP_map]
    refine countP_congr_mem ?_
    intro a _
    by_cases h12 : a.1 = a.2
    · simp [Function.comp, h12]
    · simp only [Function.comp_apply, if_neg h12, beq_iff_eq, Option.some.injEq,
        decide_eq_true_eq]
      constructor
      · intro h
        exact ⟨h, h12⟩
      · intro h
        exact h.1
  rw [htcs, hcg, hct]
  omega

/-- Witness for C3 at the duplicate-letter scenario `SPEED` vs `ERASE` with
the letter E. -/
theorem get_feedback_minimum_count_witness :
    (['S','P','E','E','D'] : Word).length = 5 ∧ (['E','R','A','S','E'] : Word).length = 5
      ∧ (((['S','P','E','E','D'] : Word).zip
            (get_feedback ['S','P','E','E','D'] ['E','R','A','S','E'])).countP
              (fun q => decide (q.1 = 'E' ∧ q.2 ≠ Fb.B))
            = min ((['S','P','E','E','D'] : Word).count 'E')
                ((['E','R','A','S','E'] : Word).count 'E')
          ∧ get_feedback ['E','R','A','S','E'] ['E','R','A','S','E']
            = List.replicate 5 Fb.G) :=
  ⟨by decide, by decide,
   get_feedback_minimum_count ['S','P','E','E','D'] ['E','R','A','S','E'] 'E'
     (by decide) (by decide)⟩

lemma bestFold_loop_mem {α : Type} [LinearOrder α] (f : Word → α) :
    ∀ (l : List Word) (b : Option (α × Word)) (s : α) (w : Word),
      (l.foldl (fun b w =>
        match b with
        | none => some (f w, w)
        | some (bs, bw) => if f w < bs then some (f w, w) else some (bs, bw)) b)
        = some (s, w) →
      b = some (s, w) ∨ w ∈ l
  | [], b, s, w => fun h => Or.inl h
  | a :: l, b, s, w => by
      intro h
      rcases bestFold_loop_mem f l _ s w h with h' | h'
      · cases b with
        | none =>
            have h2 : some (f a, a) = some (s, w) := h'
            simp only [Option.some.injEq, Prod.mk.injEq] at h2
            exact Or.inr (h2.2 ▸ List.mem_cons_self a l)
        | some p =>
            obtain ⟨bs, bw⟩ := p
            have h2 : (if f a < bs then some (f a, a) else some (bs, bw))
                = some (s, w) := h'
            by_cases hlt : f a < bs
            · rw [if_pos hlt] at h2
              simp only [Option.some.injEq, Prod.mk.injEq] at h2
              exact Or.inr (h2.2 ▸ List.mem_cons_self a l)
            · rw [if_neg hlt] at h2
              exact Or.inl h2
      · exact Or.inr (List.mem_cons_of_mem a h')

lemma bestFold_loop_isSome {α : Type} [LinearOrder α] (f : Word → α) :
    ∀ (l : List Word) (p : α × Word),
      ∃ q, (l.foldl (fun b w =>
        match b with
        | none => some (f w, w)
        | some (bs, bw) => if f w < bs then some (f w, w) else some (bs, bw))
          (some p)) = some q
  | [], p => ⟨p, rfl⟩
  | a :: l, p => by
      obtain ⟨bs, bw⟩ := p
      simp only [List.foldl_cons]
      by_cases hlt : f a < bs
      · rw [if_pos hlt]
        exact bestFold_loop_isSome f l (f a, a)
      · rw [if_neg hlt]
        exact bestFold_loop_isSome f l (bs, bw)

lemma bestFold_mem {α : Type} [LinearOrder α] (f : Word → α) (l : List Word)
    (s : α) (w : Word) (h : bestFold f l = some (s, w)) : w ∈ l := by
  rcases bestFold_loop_mem f l none s w h with h' | h'
  · cases h'
  · exact h'

lemma bestFold_isSome {α : Type} [LinearOrder α] (f : Word → α) (a : Word)
    (l : List Word) : ∃ q, bestFold f (a :: l) = some q := by
  unfold bestFold
  simp only [List.foldl_cons]
  exact bestFold_loop_isSome f l (f a, a)

lemma find_best_spec (pw aw : List Word) (known excluded : Finset Char)
    (hne : pw ≠ []) :
    ∃ w, find_best_distinguishing_word pw aw known excluded = some w
      ∧ (w ∈ aw ∨ w ∈ pw) := by
  obtain ⟨a, l, rfl⟩ := List.exists_cons_of_ne_nil hne
  by_cases h1 : (a :: l).length ≤ 1
  · have hl : l = [] := by
      cases l with
      | nil => rfl
      | cons b m => simp at h1
    subst hl
    exact ⟨a, by simp [find_best_distinguishing_word],
      Or.inr (List.mem_cons_self a [])⟩
  · have hpool : ∀ w, w ∈ ((aw.take 500).filter
        (fun w => decide (w ∉ a :: l))) → w ∈ aw :=
      fun w hw => List.take_subset 500 aw (List.mem_of_mem_filter hw)
    have hec : ∀ w, w ∈ (if (a :: l).length ≤ 3 then
          ((aw.take 500).filter (fun w => decide (w ∉ a :: l))) ++ (a :: l)
        else ((aw.take 500).filter (fun w => decide (w ∉ a :: l)))) →
        w ∈ aw ∨ w ∈ a :: l := by
      intro w hw
      by_cases h3 : (a :: l).length ≤ 3
      · rw [if_pos h3] at hw
        rcases List.mem_append.mp hw with h | h
        · exact Or.inl (hpool w h)
        · exact Or.inr h
      · rw [if_neg h3] at hw
        exact Or.inl (hpool w hw)
    simp only [find_best_distinguishing_word, if_neg h1]
    cases hbest : bestFold
        (fun w => distinguish_score w (a :: l) known excluded)
        (if (a :: l).length ≤ 3 then
          ((aw.take 500).filter (fun w => decide (w ∉ a :: l))) ++ (a :: l)
        else ((aw.take 500).filter (fun w => decide (w ∉ a :: l)))) with
    | none => exact ⟨a, by simp [hbest], Or.inr (List.mem_cons_self a l)⟩
    | some q =>
        obtain ⟨s, bw⟩ := q
        have hm := bestFold_mem _ _ _ _ hbest
        by_cases hemp : bw.isEmpty
        · exact ⟨a, by simp [hbest, hemp], Or.inr (List.mem_cons_self a l)⟩
        · exact ⟨bw, by simp [hbest, hemp], hec bw hm⟩

/-- C1 (amended): on a non-empty candidate list of at most 10 words, every
dictionary and every turn 1..6, selection returns a word without error, and
the word comes from the dictionary, from the candidates, or is the fixed
fallback opener ADIEU.  (Above 10 candidates an empty evaluation pool makes
`candidates[0]` fail instead, see the counterexample.) -/
theorem choose_best_word_small_total (pw aw : List Word) (turn : Nat)
    (known excluded : Finset Char) (hne : pw ≠ []) (h10 : pw.length ≤ 10)
    (h1 : 1 ≤ turn) (h6 : turn ≤ 6) :
    ∃ w, choose_best_word pw aw turn known excluded = Except.ok (some w)
      ∧ (w ∈ aw ∨ w ∈ pw ∨ w = ADIEU) := by
  by_cases hlen : pw.length = 1
  · obtain ⟨a, l, rfl⟩ := List.exists_cons_of_ne_nil hne
    refine ⟨a, ?_, Or.inr (Or.inl (List.mem_cons_self a l))⟩
    simp [choose_best_word, hlen]
  · by_cases hturn : turn = 1
    · subst hturn
      by_cases hc : COURT ∈ aw
      · exact ⟨COURT, by simp [choose_best_word, hlen, List.find?, hc], Or.inl hc⟩
      · exact ⟨ADIEU, by simp [choose_best_word, hlen, List.find?, hc],
          Or.inr (Or.inr rfl)⟩
    · obtain ⟨w, hw, hmem⟩ := find_best_spec pw aw known excluded hne
      refine ⟨w, by simp [choose_best_word, hlen, hturn, h10, hw], ?_⟩
      rcases hmem with h | h
      · exact Or.inl h
      · exact Or.inr (Or.inl h)

/-- Witness for C1 (amended) at a concrete input. -/
theorem choose_best_word_small_total_witness :
    ∃ w, choose_best_word [['A','A','A','A','A'], ['A','B','C','D','E']]
        [['A','A','A','A','A'], ['A','B','C','D','E']] 2 ∅ ∅ = Except.ok (some w)
      ∧ (w ∈ [['A','A','A','A','A'], ['A','B','C','D','E']]
          ∨ w ∈ [['A','A','A','A','A'], ['A','B','C','D','E']] ∨ w = ADIEU) :=
  choose_best_word_small_total _ _ 2 ∅ ∅ (by decide) (by decide) (by decide) (by decide)

lemma wordLt_irrefl : ∀ a : Word, wordLt a a = false
  | [] => rfl
  | a :: l => by simp [wordLt, wordLt_irrefl l]

lemma wordLt_conn : ∀ a b : Word, wordLt a b = false → wordLt b a = false → a = b
  | [], [], _, _ => rfl
  | [], _ :: _, h, _ => by simp [wordLt] at h
  | _ :: _, [], _, h' => by simp [wordLt] at h'
  | a :: l, b :: m, h, h' => by
      simp only [wordLt] at h h'
      by_cases hab : a < b
      · simp [hab] at h
      · by_cases hba : b < a
        · simp [hab, hba] at h'
        · have hc : a = b := le_antisymm (not_lt.mp hba) (not_lt.mp hab)
          subst hc
          simp only [lt_irrefl, if_false] at h h'
          rw [wordLt_conn l m h h']

lemma candLt_irrefl (c : Cand) : candLt c c = false := by
  simp [candLt, wordLt_irrefl, boolLt]


lemma wordLt_trans : ∀ a b c : Word,
    wordLt a b = true → wordLt b c = true → wordLt a c = true
  | [], [], _, h1, _ => by simp [wordLt] at h1
  | [], _ :: _, [], _, h2 => by simp [wordLt] at h2
  | [], _ :: _, _ :: _, _, _ => by simp [wordLt]
  | _ :: _, [], _, h1, _ => by simp [wordLt] at h1
  | _ :: _, _ :: _, [], _, h2 => by simp [wordLt] at h2
  | a :: l, b :: m, c :: n, h1, h2 => by
      simp only [wordLt] at h1 h2 ⊢
      by_cases hab : a < b
      · by_cases hbc : b < c
        · simp [lt_trans hab hbc]
        · by_cases hcb : c < b
          · simp [hbc, hcb] at h2
          · have hbceq : b = c := le_antisymm (not_lt.mp hcb) (not_lt.mp hbc)
            subst hbceq
            simp [hab]
      · by_cases hba : b < a
        · simp [hab, hba] at h1
        · have habeq : a = b := le_antisymm (not_lt.mp hba) (not_lt.mp hab)
          subst habeq
          simp only [lt_self_iff_false, if_false] at h1
          by_cases hac : a < c
          · simp [hac]
          · by_cases hca : c < a
            · simp [hac, hca] at h2
            · have haceq : a = c := le_antisymm (not_lt.mp hca) (not_lt.mp hac)
              subst haceq
              simp only [lt_self_iff_false, if_false] at h2 ⊢
              exact wordLt_trans l m n h1 h2

lemma boolLt_trans (x y z : Bool) (h1 : boolLt x y = true) (h2 : boolLt y z = true) :
    boolLt x z = true := by
  revert h1 h2
  cases x <;> cases y <;> cases z <;> simp [boolLt]

lemma boolLt_conn (x y : Bool) (h1 : boolLt x y = false) (h2 : boolLt y x = false) :
    x = y := by
  revert h1 h2
  cases x <;> cases y <;> simp [boolLt]

lemma boolLt_irrefl (x : Bool) : boolLt x x = false := by
  cases x <;> rfl

lemma candLt_conn (a b : Cand) (h1 : candLt a b = false) (h2 : candLt b a = false) :
    a = b := by
  obtain ⟨s1, w1, m1, v1, i1, u1, k1⟩ := a
  obtain ⟨s2, w2, m2, v2, i2, u2, k2⟩ := b
  simp only [candLt] at h1 h2
  by_cases p1 : s1 < s2
  · simp [p1] at h1
  by_cases p2 : s2 < s1
  · simp [p2] at h2
  have hs : s1 = s2 := le_antisymm (not_lt.mp p2) (not_lt.mp p1)
  subst hs
  simp only [lt_self_iff_false, if_false] at h1 h2
  cases q1 : wordLt w1 w2 with
  | true => simp [q1] at h1
  | false =>
  cases q2 : wordLt w2 w1 with
  | true => simp [q2] at h2
  | false =>
  have hw : w1 = w2 := wordLt_conn w1 w2 q1 q2
  subst hw
  simp only [wordLt_irrefl, Bool.false_eq_true, if_false] at h1 h2
  by_cases r1 : m1 < m2
  · simp [r1] at h1
  by_cases r2 : m2 < m1
  · simp [r2] at h2
  have hm : m1 = m2 := le_antisymm (not_lt.mp r2) (not_lt.mp r1)
  subst hm
  simp only [lt_self_iff_false, if_false] at h1 h2
  by_cases t1 : v1 < v2
  · simp [t1] at h1
  by_cases t2 : v2 < v1
  · simp [t2] at h2
  have hv : v1 = v2 := le_antisymm (not_lt.mp t2) (not_lt.mp t1)
  subst hv
  simp only [lt_self_iff_false, if_false] at h1 h2
  cases b1 : boolLt i1 i2 with
  | true => simp [b1] at h1
  | false =>
  cases b2 : boolLt i2 i1 with
  | true => simp [b2] at h2
  | false =>
  have hi : i1 = i2 := boolLt_conn i1 i2 b1 b2
  subst hi
  simp only [boolLt_irrefl, Bool.false_eq_true, if_false] at h1 h2
  by_cases u1h : u1 < u2
  · simp [u1h] at h1
  by_cases u2h : u2 < u1
  · simp [u2h] at h2
  have hu : u1 = u2 := le_antisymm (not_lt.mp u2h) (not_lt.mp u1h)
  subst hu
  simp only [lt_self_iff_false, if_false] at h1 h2
  simp only [decide_eq_false_iff_not, not_lt] at h1 h2
  have hk : k1 = k2 := le_antisymm h2 h1
  subst hk
  rfl

lemma candLt_trans (a b c : Cand) (h1 : candLt a b = true) (h2 : candLt b c = true) :
    candLt a c = true := by
  obtain ⟨s1, w1, m1, v1, i1, u1, k1⟩ := a
  obtain ⟨s2, w2, m2, v2, i2, u2, k2⟩ := b
  obtain ⟨s3, w3, m3, v3, i3, u3, k3⟩ := c
  simp only [candLt] at h1 h2 ⊢
  by_cases p1 : s1 < s2
  · by_cases q1 : s2 < s3
    · simp [lt_trans p1 q1]
    · by_cases q2 : s3 < s2
      · simp [q1, q2] at h2
      · have hs : s2 = s3 := le_antisymm (not_lt.mp q2) (not_lt.mp q1)
        subst hs
        simp [p1]
  · by_cases p2 : s2 < s1
    · simp [p1, p2] at h1
    · have hs : s1 = s2 := le_antisymm (not_lt.mp p2) (not_lt.mp p1)
      subst hs
      simp only [lt_self_iff_false, if_false] at h1
      by_cases q1 : s1 < s3
      · simp [q1]
      · by_cases q2 : s3 < s1
        · simp [q1, q2] at h2
        · have hs2 : s1 = s3 := le_antisymm (not_lt.mp q2) (not_lt.mp q1)
          subst hs2
          simp only [lt_self_iff_false, if_false] at h2 ⊢
          cases p1 : wordLt w1 w2 with
          | true =>
              cases q1 : wordLt w2 w3 with
              | true => simp [wordLt_trans w1 w2 w3 p1 q1]
              | false =>
              cases q2 : wordLt w3 w2 with
              | true => simp [q1, q2] at h2
              | false =>
              have hw : w2 = w3 := wordLt_conn w2 w3 q1 q2
              subst hw
              simp [p1]
          | false =>
          cases p2 : wordLt w2 w1 with
          | true => simp [p1, p2] at h1
          | false =>
          have hw : w1 = w2 := wordLt_conn w1 w2 p1 p2
          subst hw
          simp only [wordLt_irrefl, Bool.false_eq_true, if_false] at h1
          cases q1 : wordLt w1 w3 with
          | true => simp [q1]
          | false =>
          cases q2 : wordLt w3 w1 with
          | true => simp [q1, q2] at h2
          | false =>
          have hw2 : w1 = w3 := wordLt_conn w1 w3 q1 q2
          subst hw2
          simp only [wordLt_irrefl, Bool.false_eq_true, if_false] at h2 ⊢
          by_cases p1 : m1 < m2
          · by_cases q1 : m2 < m3
            · simp [lt_trans p1 q1]
            · by_cases q2 : m3 < m2
              · simp [q1, q2] at h2
              · have hm : m2 = m3 := le_antisymm (not_lt.mp q2) (not_lt.mp q1)
                subst hm
                simp [p1]
          · by_cases p2 : m2 < m1
            · simp [p1, p2] at h1
            · have hm : m1 = m2 := le_antisymm (not_lt.mp p2) (not_lt.mp p1)
              subst hm
              simp only [lt_self_iff_false, if_false] at h1
              by_cases q1 : m1 < m3
              · simp [q1]
              · by_cases q2 : m3 < m1
                · simp [q1, q2] at h2
                · have hm2 : m1 = m3 := le_antisymm (not_lt.mp q2) (not_lt.mp q1)
                  subst hm2
                  simp only [lt_self_iff_false, if_false] at h2 ⊢
                  by_cases p1 : v1 < v2
                  · by_cases q1 : v2 < v3
                    · simp [lt_trans p1 q1]
                    · by_cases q2 : v3 < v2
                      · simp [q1, q2] at h2
                      · have hv : v2 = v3 := le_antisymm (not_lt.mp q2) (not_lt.mp q1)
                        subst hv
                        simp [p1]
                  · by_cases p2 : v2 < v1
                    · simp [p1, p2] at h1
                    · have hv : v1 = v2 := le_antisymm (not_lt.mp p2) (not_lt.mp p1)
                      subst hv
                      simp only [lt_self_iff_false, if_false] at h1
                      by_cases q1 : v1 < v3
                      · simp [q1]
                      · by_cases q2 : v3 < v1
                        · simp [q1, q2] at h2
                        · have hv2 : v1 = v3 := le_antisymm (not_lt.mp q2) (not_lt.mp q1)
                          subst hv2
                          simp only [lt_self_iff_false, if_false] at h2 ⊢
                          cases p1 : boolLt i1 i2 with
                          | true =>
                              cases q1 : boolLt i2 i3 with
                              | true => simp [boolLt_trans i1 i2 i3 p1 q1]
                              | false =>
                              cases q2 : boolLt i3 i2 with
                              | true => simp [q1, q2] at h2
                              | false =>
                              have hi : i2 = i3 := boolLt_conn i2 i3 q1 q2
                              subst hi
                              simp [p1]
                          | false =>
                          cases p2 : boolLt i2 i1 with
                          | true => simp [p1, p2] at h1
                          | false =>
                          have hi : i1 = i2 := boolLt_conn i1 i2 p1 p2
                          subst hi
                          simp only [boolLt_irrefl, Bool.false_eq_true, if_false] at h1
                          cases q1 : boolLt i1 i3 with
                          | true => simp [q1]
                          | false =>
                          cases q2 : boolLt i3 i1 with
                          | true => simp [q1, q2] at h2
                          | false =>
                          have hi2 : i1 = i3 := boolLt_conn i1 i3 q1 q2
                          subst hi2
                          simp only [boolLt_irrefl, Bool.false_eq_true, if_false] at h2 ⊢
                          by_cases p1 : u1 < u2
                          · by_cases q1 : u2 < u3
                            · simp [lt_trans p1 q1]
                            · by_cases q2 : u3 < u2
                              · simp [q1, q2] at h2
                              · have hu : u2 = u3 := le_antisymm (not_lt.mp q2) (not_lt.mp q1)
                                subst hu
                                simp [p1]
                          · by_cases p2 : u2 < u1
                            · simp [p1, p2] at h1
                            · have hu : u1 = u2 := le_antisymm (not_lt.mp p2) (not_lt.mp p1)
                              subst hu
                              simp only [lt_self_iff_false, if_false] at h1
                              by_cases q1 : u1 < u3
                              · simp [q1]
                              · by_cases q2 : u3 < u1
                                · simp [q1, q2] at h2
                                · have hu2 : u1 = u3 := le_antisymm (not_lt.mp q2) (not_lt.mp q1)
                                  subst hu2
                                  simp only [lt_self_iff_false, if_false] at h2 ⊢
                                  simp only [decide_eq_true_eq] at h1 h2 ⊢
                                  exact lt_trans h1 h2

lemma candLt_asymm (a b : Cand) (h : candLt a b = true) : candLt b a = false := by
  cases hba : candLt b a with
  | false => rfl
  | true =>
      have hc := candLt_trans a b a h hba
      rw [candLt_irrefl a] at hc
      cases hc

lemma pyInsert_mem {α : Type} (le : α → α → Bool) (a y : α) :
    ∀ l : List α, y ∈ pyInsert le a l ↔ y = a ∨ y ∈ l
  | [] => by simp [pyInsert]
  | b :: bs => by
      by_cases h : le a b = true
      · simp [pyInsert, h]
      · simp only [pyInsert, if_neg h, List.mem_cons, pyInsert_mem le a y bs]
        tauto

lemma pySort_mem {α : Type} (le : α → α → Bool) :
    ∀ (l : List α) (y : α), y ∈ pySort le l ↔ y ∈ l
  | [], y => by simp [pySort]
  | a :: l, y => by
      simp only [pySort, pyInsert_mem, List.mem_cons, pySort_mem le l y]

lemma pyInsert_pairwise {α : Type} (le : α → α → Bool)
    (hTot : ∀ x y, le x y = true ∨ le y x = true)
    (hTrans : ∀ x y z, le x y = true → le y z = true → le x z = true) (a : α) :
    ∀ l : List α, l.Pairwise (fun x y => le x y = true) →
      (pyInsert le a l).Pairwise (fun x y => le x y = true)
  | [], _ => by simp [pyInsert]
  | b :: bs, hp => by
      rcases List.pairwise_cons.mp hp with ⟨hb, hbs⟩
      by_cases h : le a b = true
      · simp only [pyInsert, if_pos h]
        refine List.pairwise_cons.mpr ⟨?_, hp⟩
        intro y hy
        rcases List.mem_cons.mp hy with rfl | hy'
        · exact h
        · exact hTrans a b y h (hb y hy')
      · simp only [pyInsert, if_neg h]
        refine List.pairwise_cons.mpr
          ⟨?_, pyInsert_pairwise le hTot hTrans a bs hbs⟩
        intro y hy
        rcases (pyInsert_mem le a y bs).mp hy with rfl | hy'
        · rcases hTot y b with hab | hba
          · exact absurd hab h
          · exact hba
        · exact hb y hy'

lemma pySort_pairwise {α : Type} (le : α → α → Bool)
    (hTot : ∀ x y, le x y = true ∨ le y x = true)
    (hTrans : ∀ x y z, le x y = true → le y z = true → le x z = true) :
    ∀ l : List α, (pySort le l).Pairwise (fun x y => le x y = true)
  | [] => by simp [pySort]
  | a :: l => by
      simp only [pySort]
      exact pyInsert_pairwise le hTot hTrans a _ (pySort_pairwise le hTot hTrans l)

lemma candLe_total (x y : Cand) :
    (!(candLt y x)) = true ∨ (!(candLt x y)) = true := by
  cases h : candLt y x with
  | false => exact Or.inl rfl
  | true => exact Or.inr (by simp [candLt_asymm y x h])

lemma candLe_trans (x y z : Cand) (hxy : (!(candLt y x)) = true)
    (hyz : (!(candLt z y)) = true) : (!(candLt z x)) = true := by
  rw [Bool.not_eq_true'] at hxy hyz ⊢
  cases hzx : candLt z x with
  | false => rfl
  | true =>
      cases hxy2 : candLt x y with
      | true =>
          have := candLt_trans z x y hzx hxy2
          rw [hyz] at this
          cases this
      | false =>
          have hxyeq : x = y := candLt_conn x y hxy2 hxy
          subst hxyeq
          rw [hzx] at hyz
          cases hyz

lemma general_scoring_phase_spec (pool pw aw : List Word) (turn : Nat)
    (known excluded : Finset Char) (hne : pool ≠ []) :
    ∃ w, w ∈ pool
      ∧ general_scoring_phase pool pw aw turn known excluded = Except.ok (some w)
      ∧ ∀ v ∈ pool, candLt (score_tuple v pw aw turn known excluded)
          (score_tuple w pw aw turn known excluded) = false := by
  obtain ⟨p0, pool', rfl⟩ := List.exists_cons_of_ne_nil hne
  cases hsort : pySort (fun a b => !(candLt b a))
      ((p0 :: pool').map (fun w => score_tuple w pw aw turn known excluded)) with
  | nil =>
      exfalso
      have hm : score_tuple p0 pw aw turn known excluded ∈ pySort (fun a b => !(candLt b a))
          ((p0 :: pool').map (fun w => score_tuple w pw aw turn known excluded)) := by
        rw [pySort_mem]
        exact List.mem_map_of_mem _ (List.mem_cons_self p0 pool')
      rw [hsort] at hm
      exact absurd hm (List.not_mem_nil _)
  | cons c rest =>
      have hcmem : c ∈ (p0 :: pool').map
          (fun w => score_tuple w pw aw turn known excluded) := by
        rw [← pySort_mem (fun a b => !(candLt b a))]
        rw [hsort]
        exact List.mem_cons_self c rest
      obtain ⟨w, hwmem, hwc⟩ := List.mem_map.mp hcmem
      refine ⟨w, hwmem, ?_, ?_⟩
      · simp only [general_scoring_phase]
        rw [hsort, ← hwc]
        rfl
      · intro v hv
        have hpw : (c :: rest).Pairwise
            (fun x y => (fun a b => !(candLt b a)) x y = true) := by
          rw [← hsort]
          exact pySort_pairwise _ candLe_total candLe_trans _
        have hvmem : score_tuple v pw aw turn known excluded ∈ c :: rest := by
          rw [← hsort, pySort_mem]
          exact List.mem_map_of_mem _ hv
        rw [hwc]
        rcases List.mem_cons.mp hvmem with heq | hmem'
        · rw [heq]
          exact candLt_irrefl c
        · have hle := (List.pairwise_cons.mp hpw).1 _ hmem'
          rw [Bool.not_eq_true'] at hle
          exact hle

lemma candLt_tie_word (cv cw : Cand) (h : candLt cv cw = false)
    (hs : cw.score = cv.score) : wordLt cv.word cw.word = false := by
  cases hw : wordLt cv.word cw.word with
  | false => rfl
  | true =>
      exfalso
      have hc : candLt cv cw = true := by
        simp [candLt, hs, lt_self_iff_false, hw]
      rw [h] at hc
      cases hc

/-- C4 (amended): in the general selection case (more than 10 candidates),
whichever branch builds the evaluation pool, the selected word is one whose
scored tuple is minimal under Python's ascending lexicographic tuple
comparison over the whole pool; in particular, among all evaluation-pool words
whose total score ties the selected word's, none is lexicographically smaller
than the selected word — ties on score are decided by the word comparison
inside the tuple, not by evaluation-pool order. -/
theorem choose_best_word_tie_break (pw aw : List Word) (turn : Nat)
    (known excluded : Finset Char) (pool : List Word)
    (h10 : 10 < pw.length) (ht : turn ≠ 1)
    (hpool : pool = if 15 < pw.length
        then elimination_evaluation_set pw aw known excluded
        else medium_evaluation_set pw aw known excluded)
    (hne : pool ≠ []) :
    ∃ w, w ∈ pool
      ∧ choose_best_word pw aw turn known excluded = Except.ok (some w)
      ∧ (∀ v ∈ pool, candLt (score_tuple v pw aw turn known excluded)
            (score_tuple w pw aw turn known excluded) = false)
      ∧ (∀ v ∈ pool, (score_tuple w pw aw turn known excluded).score
            = (score_tuple v pw aw turn known excluded).score
          → wordLt v w = false) := by
  have hlen1 : ¬ pw.length = 1 := by omega
  have hlen2 : ¬ pw.length = 2 := by omega
  have hn10 : ¬ pw.length ≤ 10 := by omega
  have h6 : 6 < pw.length := by omega
  have hred : choose_best_word pw aw turn known excluded
      = general_scoring_phase pool pw aw turn known excluded := by
    by_cases h15 : 15 < pw.length
    · rw [hpool, if_pos h15]
      simp [choose_best_word, hlen1, ht, hn10, hlen2, h15]
    · rw [hpool, if_neg h15]
      simp [choose_best_word, hlen1, ht, hn10, hlen2, h15, h6]
  obtain ⟨w, hwmem, hres, hmin⟩ :=
    general_scoring_phase_spec pool pw aw turn known excluded hne
  refine ⟨w, hwmem, hred.trans hres, hmin, ?_⟩
  intro v hv hties
  exact candLt_tie_word (score_tuple v pw aw turn known excluded)
    (score_tuple w pw aw turn known excluded) (hmin v hv) hties

/-- Witness for C4 (amended) at a concrete input whose pool has a score tie. -/
theorem choose_best_word_tie_break_witness :
    ∃ w, w ∈ medium_evaluation_set cexCandidates cexDictionary ∅ ∅
      ∧ choose_best_word cexCandidates cexDictionary 2 ∅ ∅ = Except.ok (some w)
      ∧ (∀ v ∈ medium_evaluation_set cexCandidates cexDictionary ∅ ∅,
          candLt (score_tuple v cexCandidates cexDictionary 2 ∅ ∅)
            (score_tuple w cexCandidates cexDictionary 2 ∅ ∅) = false)
      ∧ (∀ v ∈ medium_evaluation_set cexCandidates cexDictionary ∅ ∅,
          (score_tuple w cexCandidates cexDictionary 2 ∅ ∅).score
            = (score_tuple v cexCandidates cexDictionary 2 ∅ ∅).score
          → wordLt v w = false) :=
  choose_best_word_tie_break cexCandidates cexDictionary 2 ∅ ∅
    (medium_evaluation_set cexCandidates cexDictionary ∅ ∅)
    (by decide) (by decide) rfl (by decide)
